import Mathlib

/-!
# easipfs: the ingestion facade of client.go

A shallow embedding of the four methods of the client type clt in client.go
(Add, Get, ListCID, Pin).  Every collaborator the methods call into (the
primary store rpc.HttpApi, the pin coordinator pinManager, the stream
duplicator teeReader, the go-cid and bufio and files packages) is a record of
functions over an external state, and every call to a collaborator is logged, so
that statements about which collaborator was called, with what, in which order
and how often are statements about the log.
-/

namespace Easipfs

/-! ## Data model -/

/-- One byte of a content stream. -/
abbrev Byte := Fin 256

/-- Go error values.  The facade itself creates exactly one error, the sentinel
os.ErrNotExist; every other error comes out of a collaborator. -/
inductive GoError where
  | ErrNotExist
  | other (msg : String)
  deriving DecidableEq, Repr

deriving instance DecidableEq for Except

/-- The exported identifier type: type CID struct { Hash string }. -/
structure CID where
  Hash : String
  deriving DecidableEq, Repr

/-- The decoded identifier cid.Cid of go-cid, a struct around one string. -/
structure Cid where
  str : String
  deriving DecidableEq, Repr

/-- The path.ImmutablePath of boxo: a root identifier and what follows it. -/
structure ImmutablePath where
  RootCid : Cid
  Remainder : List String
  deriving DecidableEq, Repr

/-- The constructor path.FromCid: the path that is the identifier alone. -/
def FromCid (cid : Cid) : ImmutablePath := ⟨cid, []⟩

/-- One element of the primary store's pin listing (iface.Pin). -/
structure Pin where
  Path : ImmutablePath
  PinType : String
  deriving DecidableEq, Repr

/-- What the primary store's get returns (files.Node): a value whose dynamic type
is a files.File, on which the assertion nd.(files.File) succeeds, or something
else (a directory), on which it fails. -/
inductive Node (R : Type) where
  | file (f : R)
  | directory (entries : List String)
  deriving DecidableEq

/-- The configuration type Config; client.go reads the two fields IpfsUrl and
CIDVersion of it. -/
structure Config where
  IpfsUrl : String
  CIDVersion : Int
  deriving DecidableEq, Repr

/-- The add settings options.UnixfsAddSettings of kubo.  client.go touches the
fields CidVersion and Pin; all the other fields are carried in rest. -/
structure UnixfsAddSettings (ρ : Type) where
  CidVersion : Int
  Pin : Bool
  rest : ρ

/-- An add option, func(*UnixfsAddSettings) error: the settings after the call
and the returned error (none for nil). -/
abbrev UnixfsAddOption (ρ : Type) :=
  UnixfsAddSettings ρ → UnixfsAddSettings ρ × Option GoError

/-! ## Collaborators -/

/-- The primary store rpc.HttpApi, as far as client.go calls it.  Each operation
reads and updates the external state. -/
structure HttpApi (σ R ρ : Type) where
  UnixfsAdd : R → List (UnixfsAddOption ρ) → σ → Except GoError ImmutablePath × σ
  UnixfsGet : ImmutablePath → σ → Except GoError (Node R) × σ
  PinLs : σ → Except GoError (List Pin) × σ
  PinAdd : ImmutablePath → σ → Option GoError × σ

/-- The pin coordinator pinManager, as far as client.go calls it: add takes the
deferred stream copy, pin takes an identifier, neither returns a value. -/
structure pinManager (σ R : Type) where
  add : R → σ → σ
  pin : CID → σ → σ

/-- The functions client.go calls that belong to no receiver: cid.Decode,
Cid.String, bufio.NewReader, files.NewReaderFile and the stream duplicator
teeReader, which returns the two read handles. -/
structure Lib (σ R : Type) where
  Decode : String → Except GoError Cid
  CidString : Cid → String
  bufioNewReader : R → R
  NewReaderFile : R → R
  teeReader : R → σ → (R × R) × σ

/-- The client: type clt struct { api; pnm; conf; log }.  The logger is written
by none of the four methods and is left out. -/
structure clt (σ R ρ : Type) where
  api : HttpApi σ R ρ
  pnm : pinManager σ R
  conf : Config

/-- One logged call to a collaborator, with its arguments. -/
inductive Call (R ρ : Type) where
  | teeReader (buf : R)
  | UnixfsAdd (file : R) (opts : List (UnixfsAddOption ρ))
  | UnixfsGet (p : ImmutablePath)
  | PinLs
  | PinAdd (p : ImmutablePath)
  | pnmAdd (reuse : R)
  | pnmPin (cid : CID)

/-- The external state together with the log of the calls made so far. -/
structure World (σ R ρ : Type) where
  ext : σ
  trace : List (Call R ρ)

/-- Record one call and the external state it left behind. -/
def World.call {σ R ρ : Type} (w : World σ R ρ) (c : Call R ρ) (s : σ) : World σ R ρ :=
  ⟨s, w.trace ++ [c]⟩

/-- What a logged call hands to the pin coordinator: nothing when the call goes
elsewhere, the stream for add, the identifier for pin. -/
inductive PnmArg (R : Type) where
  | stream (reuse : R)
  | ident (cid : CID)
  deriving DecidableEq

/-- The pin coordinator's view of a call. -/
def Call.pnm {R ρ : Type} : Call R ρ → Option (PnmArg R)
  | .pnmAdd reuse => some (.stream reuse)
  | .pnmPin cid => some (.ident cid)
  | _ => none

/-- The calls of a log that went to the pin coordinator, in order. -/
def pnmCalls {R ρ : Type} (t : List (Call R ρ)) : List (PnmArg R) :=
  t.filterMap Call.pnm

/-- The primary store's view of a call: the path a pin request carries. -/
def Call.pinAdd {R ρ : Type} : Call R ρ → Option ImmutablePath
  | .PinAdd p => some p
  | _ => none

/-- The primary store's view of a call: the file an add request carries. -/
def Call.unixfsAdd {R ρ : Type} : Call R ρ → Option R
  | .UnixfsAdd file _ => some file
  | _ => none

/-! ## The facade -/

/-- The option function Add passes to the primary store:
func(uas) { uas.CidVersion = c.conf.CIDVersion; uas.Pin = true; return nil }. -/
def addOption {ρ : Type} (conf : Config) : UnixfsAddOption ρ := fun uas =>
  let uas := { uas with CidVersion := conf.CIDVersion }
  let uas := { uas with Pin := true }
  (uas, none)

/-- The method clt.Add.  The result is the pair (CID pointer, error) with none
for nil. -/
def clt.Add {σ R ρ : Type} (L : Lib σ R) (c : clt σ R ρ) (r : R) (w : World σ R ρ) :
    (Option CID × Option GoError) × World σ R ρ :=
  let buf := L.bufioNewReader r
  let t := L.teeReader buf w.ext
  let add := t.1.1
  let reuse := t.1.2
  let w1 := w.call (.teeReader buf) t.2
  let a := c.api.UnixfsAdd (L.NewReaderFile add) [addOption c.conf] w1.ext
  let w2 := w1.call (.UnixfsAdd (L.NewReaderFile add) [addOption c.conf]) a.2
  match a.1 with
  | .error err => ((none, some err), w2)
  | .ok added =>
    let w3 := w2.call (.pnmAdd reuse) (c.pnm.add reuse w2.ext)
    ((some ⟨L.CidString added.RootCid⟩, none), w3)

/-- The method clt.Get.  The result is the pair (reader, error). -/
def clt.Get {σ R ρ : Type} (L : Lib σ R) (c : clt σ R ρ) (req : CID) (w : World σ R ρ) :
    (Option R × Option GoError) × World σ R ρ :=
  match L.Decode req.Hash with
  | .error err => ((none, some err), w)
  | .ok cid =>
    let g := c.api.UnixfsGet (FromCid cid) w.ext
    let w1 := w.call (.UnixfsGet (FromCid cid)) g.2
    match g.1 with
    | .error err => ((none, some err), w1)
    | .ok nd =>
      match nd with
      | .file f => ((some f, none), w1)
      | .directory _ => ((none, some .ErrNotExist), w1)

/-- A channel, seen from its reader: the values sent on it so far, in order, and
whether it has been closed. -/
structure Chan (α : Type) where
  sent : List α
  closed : Bool
  deriving DecidableEq, Repr

/-- The goroutine ListCID starts: for pin := range ch { res <- CID of pin },
with res closed when the loop ends.  The first argument is what the primary
store's channel still delivers before it is closed. -/
def forward {σ R : Type} (L : Lib σ R) : List Pin → Chan CID → Chan CID
  | [], res => { res with closed := true }
  | pin :: ch, res =>
    forward L ch { res with sent := res.sent ++ [⟨L.CidString pin.Path.RootCid⟩] }

/-- The method clt.ListCID.  The returned channel is given by everything a reader
who drains it receives: the goroutine run on the fresh channel res. -/
def clt.ListCID {σ R ρ : Type} (L : Lib σ R) (c : clt σ R ρ) (w : World σ R ρ) :
    (Option (Chan CID) × Option GoError) × World σ R ρ :=
  let l := c.api.PinLs w.ext
  let w1 := w.call .PinLs l.2
  match l.1 with
  | .error err => ((none, some err), w1)
  | .ok ch => ((some (forward L ch ⟨[], false⟩), none), w1)

/-- The method clt.Pin.  The result is the returned error. -/
def clt.Pin {σ R ρ : Type} (L : Lib σ R) (c : clt σ R ρ) (req : CID) (w : World σ R ρ) :
    Option GoError × World σ R ρ :=
  match L.Decode req.Hash with
  | .error err => (some err, w)
  | .ok cid =>
    let w1 := w.call (.pnmPin ⟨L.CidString cid⟩) (c.pnm.pin ⟨L.CidString cid⟩ w.ext)
    let p := c.api.PinAdd (FromCid cid) w1.ext
    (p.1, w1.call (.PinAdd (FromCid cid)) p.2)

/-! ## Names for the intermediate values of Add and Pin -/

/-- Copy A: the first handle the stream duplicator returns within Add. -/
def copyA {σ R : Type} (L : Lib σ R) (r : R) (s : σ) : R :=
  (L.teeReader (L.bufioNewReader r) s).1.1

/-- Copy B: the second handle the stream duplicator returns within Add, called
reuse in the source. -/
def copyB {σ R : Type} (L : Lib σ R) (r : R) (s : σ) : R :=
  (L.teeReader (L.bufioNewReader r) s).1.2

/-- The primary store's answer to the add request Add makes: the request carries
copy A wrapped as a file and the option function, and meets the external state
the stream duplicator left behind. -/
def clt.primaryAdd {σ R ρ : Type} (L : Lib σ R) (c : clt σ R ρ) (r : R) (s : σ) :
    Except GoError ImmutablePath × σ :=
  c.api.UnixfsAdd (L.NewReaderFile (copyA L r s)) [addOption c.conf]
    (L.teeReader (L.bufioNewReader r) s).2

/-- The primary store's answer to the pin request Pin makes for a decoded
identifier: the request meets the external state the pin coordinator left
behind. -/
def clt.primaryPin {σ R ρ : Type} (L : Lib σ R) (c : clt σ R ρ) (cid : Cid) (s : σ) :
    Option GoError × σ :=
  c.api.PinAdd (FromCid cid) (c.pnm.pin ⟨L.CidString cid⟩ s)

/-- The identifier ListCID sends for one pin of the listing. -/
def pinCID {σ R : Type} (L : Lib σ R) (pin : Pin) : CID :=
  ⟨L.CidString pin.Path.RootCid⟩

/-! ## The stream duplicator

client.go calls teeReader and does not define it.  What follows is the
duplicator of the specification: one source, two read handles A and B, and a
bounded backlog between them. -/

/-- Modelled from the spec: the error BufferOverflow of the stream duplicator,
raised when the backlog between A and B would exceed the ceiling.  The
duplicator itself (teeReader) is missing from client.go. -/
inductive DupError where
  | BufferOverflow
  deriving DecidableEq, Repr

/-- Modelled from the spec: the two read handles of a duplicated stream, missing
from client.go with teeReader.  A is the copy that pulls from the source (add
in the source), B the deferred copy (reuse in the source). -/
inductive Side where
  | A
  | B
  deriving DecidableEq, Repr

/-- Modelled from the spec: the DuplicatedStream that teeReader, missing from
client.go, returns.  The bytes the source has not yet given up, the backlog of
bytes pulled through A and not yet requested by B, the configured ceiling of
the backlog, and the bytes delivered so far to each handle. -/
structure DuplicatedStream where
  source : List Byte
  backlog : List Byte
  ceiling : Nat
  outA : List Byte
  outB : List Byte
  deriving DecidableEq, Repr

/-- Modelled from the spec: teeReader, missing from client.go.  Given one readable
byte source it produces the two handles over a fresh duplicated stream: nothing
is pulled, buffered or delivered yet. -/
def teeReader (ceiling : Nat) (buf : List Byte) : DuplicatedStream :=
  ⟨buf, [], ceiling, [], []⟩

/-- Modelled from the spec: a read of at most n bytes on handle A of the
duplicator missing from client.go.  It pulls from the source; the bytes go to
A and into the backlog; when the backlog would exceed the ceiling the read
fails with BufferOverflow. -/
def DuplicatedStream.readA (d : DuplicatedStream) (n : Nat) : Except DupError DuplicatedStream :=
  let chunk := d.source.take n
  if d.backlog.length + chunk.length > d.ceiling then .error .BufferOverflow
  else .ok { d with source := d.source.drop n, backlog := d.backlog ++ chunk,
                    outA := d.outA ++ chunk }

/-- Modelled from the spec: a read of at most n bytes on handle B of the
duplicator missing from client.go.  It takes the oldest bytes of the backlog,
which may be fewer than n, and never touches the source. -/
def DuplicatedStream.readB (d : DuplicatedStream) (n : Nat) : DuplicatedStream :=
  { d with backlog := d.backlog.drop n, outB := d.outB ++ d.backlog.take n }

/-- Modelled from the spec: one read, on either handle, of the duplicator missing
from client.go. -/
def DuplicatedStream.read (d : DuplicatedStream) : Side × Nat → Except DupError DuplicatedStream
  | (.A, n) => d.readA n
  | (.B, n) => .ok (d.readB n)

/-- Modelled from the spec: a schedule of reads on the two handles of the
duplicator missing from client.go, performed in order; the first failing read
ends the run. -/
def DuplicatedStream.run (d : DuplicatedStream) : List (Side × Nat) → Except DupError DuplicatedStream
  | [] => .ok d
  | rd :: rest =>
    match d.read rd with
    | .error e => .error e
    | .ok d1 => d1.run rest

/-- Modelled from the spec: the schedule in which A is drained by reads of the
sizes na and only then B is read, by reads of the sizes nb. -/
def drainAThenB (na nb : List Nat) : List (Side × Nat) :=
  na.map (fun n => (Side.A, n)) ++ nb.map (fun n => (Side.B, n))

/-- What holds of a duplicated stream over the byte sequence src at every moment:
A has received a prefix of src and the source holds the rest, B has received a
prefix of what A received and the backlog holds the rest. -/
def DupInv (src : List Byte) (d : DuplicatedStream) : Prop :=
  d.outA ++ d.source = src ∧ d.outB ++ d.backlog = d.outA

/-! ## Add over the duplicator

The facade instantiated with the duplicator above: read handles are terms that
say where a reader comes from, the external state is the duplicated stream. -/

/-- A read handle of the instantiation: the caller's stream, a bufio reader
around a handle, one of the two copies, or a file around a handle. -/
inductive Handle where
  | input (bytes : List Byte)
  | bufio (r : Handle)
  | copy (side : Side)
  | file (r : Handle)
  deriving DecidableEq, Repr

/-- The bytes behind a handle that wraps the caller's stream. -/
def Handle.bytes : Handle → List Byte
  | .input bs => bs
  | .bufio r => r.bytes
  | .copy _ => []
  | .file r => r.bytes

/-- The copy of the duplicated stream a handle reads from, if any. -/
def Handle.side : Handle → Option Side
  | .input _ => none
  | .bufio r => r.side
  | .copy s => some s
  | .file r => r.side

/-- The library with the duplicator above as teeReader, under a given ceiling. -/
def dupLib (ceiling : Nat) : Lib DuplicatedStream Handle where
  Decode := fun s => .ok ⟨s⟩
  CidString := fun cid => cid.str
  bufioNewReader := .bufio
  NewReaderFile := .file
  teeReader := fun buf _ => ((.copy .A, .copy .B), teeReader ceiling buf.bytes)

/-- Read a handle by reads of the given sizes. -/
def drain (r : Handle) (sizes : List Nat) (d : DuplicatedStream) : Except DupError DuplicatedStream :=
  match r.side with
  | some s => d.run (sizes.map (fun n => (s, n)))
  | none => .ok d

/-- A primary store whose add reads the file it is given by reads of the given
sizes and answers with the identifier QmA, or with the error of the read. -/
def drainingApi (sizes : List Nat) : HttpApi DuplicatedStream Handle Unit where
  UnixfsAdd := fun file _ d =>
    match drain file sizes d with
    | .error _ => (.error (.other "BufferOverflow"), d)
    | .ok d1 => (.ok ⟨⟨"QmA"⟩, []⟩, d1)
  UnixfsGet := fun _ d => (.error .ErrNotExist, d)
  PinLs := fun d => (.ok [], d)
  PinAdd := fun _ d => (none, d)

/-- A pin coordinator whose add reads the stream it is given by reads of the
given sizes. -/
def drainingPnm (sizes : List Nat) : pinManager DuplicatedStream Handle where
  add := fun reuse d =>
    match drain reuse sizes d with
    | .error _ => d
    | .ok d1 => d1
  pin := fun _ d => d

/-- The client over the draining primary store and the draining coordinator. -/
def drainingClt (na nb : List Nat) : clt DuplicatedStream Handle Unit :=
  ⟨drainingApi na, drainingPnm nb, ⟨"http://localhost:5001", 1⟩⟩

/-! ## Test doubles

Concrete collaborators on which the statements below are evaluated.  Read handles
are numbers, the external state is a journal of what the collaborators did. -/

/-- A library double: the empty string and "not-a-cid" do not decode, any other
string decodes to itself; the duplicator hands out two fresh handles. -/
def demoLib : Lib (List String) Nat where
  Decode := fun s =>
    if s = "" ∨ s = "not-a-cid" then .error (.other "invalid cid") else .ok ⟨s⟩
  CidString := fun cid => cid.str
  bufioNewReader := fun r => r + 1
  NewReaderFile := fun r => r + 100
  teeReader := fun buf s => ((buf + 10, buf + 20), s ++ ["tee"])

/-- A pin coordinator double that journals its calls. -/
def demoPnm : pinManager (List String) Nat where
  add := fun _ s => s ++ ["pnm.add"]
  pin := fun _ s => s ++ ["pnm.pin"]

/-- A primary store double on which every operation succeeds. -/
def okApi : HttpApi (List String) Nat Unit where
  UnixfsAdd := fun _ _ s => (.ok ⟨⟨"QmA"⟩, []⟩, s ++ ["api.add"])
  UnixfsGet := fun _ s => (.ok (.file 7), s ++ ["api.get"])
  PinLs := fun s => (.ok [⟨⟨⟨"QmA"⟩, []⟩, "recursive"⟩, ⟨⟨⟨"QmB"⟩, []⟩, "direct"⟩], s ++ ["api.ls"])
  PinAdd := fun _ s => (none, s ++ ["api.pin"])

/-- A primary store double on which every operation fails. -/
def downApi : HttpApi (List String) Nat Unit where
  UnixfsAdd := fun _ _ s => (.error (.other "store down"), s)
  UnixfsGet := fun _ s => (.error (.other "store down"), s)
  PinLs := fun s => (.error (.other "store down"), s)
  PinAdd := fun _ s => (some (.other "store down"), s)

/-- A primary store double whose get returns a directory. -/
def dirApi : HttpApi (List String) Nat Unit where
  UnixfsAdd := fun _ _ s => (.ok ⟨⟨"QmA"⟩, []⟩, s)
  UnixfsGet := fun _ s => (.ok (.directory ["a", "b"]), s)
  PinLs := fun s => (.ok [], s)
  PinAdd := fun _ s => (none, s)

/-- A client over the working primary store. -/
def okClt : clt (List String) Nat Unit := ⟨okApi, demoPnm, ⟨"http://localhost:5001", 1⟩⟩

/-- A client over the failing primary store. -/
def downClt : clt (List String) Nat Unit := ⟨downApi, demoPnm, ⟨"http://localhost:5001", 1⟩⟩

/-- A client over the primary store that returns directories. -/
def dirClt : clt (List String) Nat Unit := ⟨dirApi, demoPnm, ⟨"http://localhost:5001", 1⟩⟩

/-- The world before any call. -/
def w0 : World (List String) Nat Unit := ⟨[], []⟩

/-! ## Lemmas shared by the theorems -/

section Lemmas

variable {σ R ρ : Type}

theorem Add_of_error (L : Lib σ R) (c : clt σ R ρ) (r : R) (w : World σ R ρ) (e : GoError)
    (h : (c.primaryAdd L r w.ext).1 = .error e) :
    c.Add L r w = ((none, some e),
      ⟨(c.primaryAdd L r w.ext).2, w.trace ++ [.teeReader (L.bufioNewReader r),
        .UnixfsAdd (L.NewReaderFile (copyA L r w.ext)) [addOption c.conf]]⟩) := by
  unfold clt.primaryAdd copyA at h
  simp only [clt.Add, World.call, clt.primaryAdd, copyA, h, List.append_assoc,
    List.singleton_append, List.cons_append, List.nil_append]

theorem Add_of_ok (L : Lib σ R) (c : clt σ R ρ) (r : R) (w : World σ R ρ) (p : ImmutablePath)
    (h : (c.primaryAdd L r w.ext).1 = .ok p) :
    c.Add L r w = ((some ⟨L.CidString p.RootCid⟩, none),
      ⟨c.pnm.add (copyB L r w.ext) (c.primaryAdd L r w.ext).2,
        w.trace ++ [.teeReader (L.bufioNewReader r),
          .UnixfsAdd (L.NewReaderFile (copyA L r w.ext)) [addOption c.conf],
          .pnmAdd (copyB L r w.ext)]⟩) := by
  unfold clt.primaryAdd copyA at h
  simp only [clt.Add, World.call, clt.primaryAdd, copyA, copyB, h, List.append_assoc,
    List.singleton_append, List.cons_append, List.nil_append]

theorem Pin_of_error (L : Lib σ R) (c : clt σ R ρ) (req : CID) (w : World σ R ρ) (e : GoError)
    (h : L.Decode req.Hash = .error e) :
    c.Pin L req w = (some e, w) := by
  simp only [clt.Pin, h]

theorem Pin_of_ok (L : Lib σ R) (c : clt σ R ρ) (req : CID) (w : World σ R ρ) (cid : Cid)
    (h : L.Decode req.Hash = .ok cid) :
    c.Pin L req w = ((c.primaryPin L cid w.ext).1,
      ⟨(c.primaryPin L cid w.ext).2,
        w.trace ++ [.pnmPin ⟨L.CidString cid⟩, .PinAdd (FromCid cid)]⟩) := by
  simp only [clt.Pin, h, World.call, clt.primaryPin, List.append_assoc, List.singleton_append]

theorem pnmCalls_append (t u : List (Call R ρ)) :
    pnmCalls (t ++ u) = pnmCalls t ++ pnmCalls u := by
  simp [pnmCalls, List.filterMap_append]

theorem forward_eq (L : Lib σ R) (pins : List Pin) (res : Chan CID) :
    forward L pins res = ⟨res.sent ++ pins.map (pinCID L), true⟩ := by
  induction pins generalizing res with
  | nil => simp [forward]
  | cons pin ch ih => simp [forward, ih, pinCID]

end Lemmas

/-! ## Add -/

/-- C1: when the primary store's add answers the request of Add with an error e,
Add returns the nil CID together with exactly e, the calls it made are the stream
duplicator and the primary store's add and nothing else, so the pin coordinator
received no call, and the external state is the one the primary store left. -/
theorem Add_primary_error_short_circuits {σ R ρ : Type} (L : Lib σ R) (c : clt σ R ρ) (r : R)
    (w : World σ R ρ) (e : GoError) (h : (c.primaryAdd L r w.ext).1 = .error e) :
    (c.Add L r w).1 = (none, some e) ∧
    (c.Add L r w).2.trace = w.trace ++ [.teeReader (L.bufioNewReader r),
      .UnixfsAdd (L.NewReaderFile (copyA L r w.ext)) [addOption c.conf]] ∧
    pnmCalls (c.Add L r w).2.trace = pnmCalls w.trace ∧
    (c.Add L r w).2.ext = (c.primaryAdd L r w.ext).2 := by
  rw [Add_of_error L c r w e h]
  refine ⟨rfl, rfl, ?_, rfl⟩
  simp [pnmCalls_append, pnmCalls, Call.pnm]

/-- C1, evaluated on the failing primary store. -/
theorem Add_primary_error_short_circuits_witness :
    (downClt.primaryAdd demoLib 0 w0.ext).1 = .error (.other "store down") ∧
    (downClt.Add demoLib 0 w0).1 = (none, some (.other "store down")) ∧
    (downClt.Add demoLib 0 w0).2.trace = w0.trace ++ [.teeReader 1,
      .UnixfsAdd 111 [addOption downClt.conf]] ∧
    pnmCalls (downClt.Add demoLib 0 w0).2.trace = pnmCalls w0.trace ∧
    (downClt.Add demoLib 0 w0).2.ext = ["tee"] :=
  ⟨by decide, Add_primary_error_short_circuits demoLib downClt 0 w0 (.other "store down")
    (by decide)⟩

/-- C5, as stated, fails: on a run where the primary store's add succeeds with the
identifier QmA, the pin coordinator is not handed that identifier. -/
theorem Add_hands_no_identifier :
    (okClt.primaryAdd demoLib 0 w0.ext).1 = .ok ⟨⟨"QmA"⟩, []⟩ ∧
    (okClt.Add demoLib 0 w0).1 = (some ⟨"QmA"⟩, none) ∧
    ¬ (PnmArg.ident ⟨"QmA"⟩ ∈ pnmCalls (okClt.Add demoLib 0 w0).2.trace ∧
        PnmArg.stream (copyB demoLib 0 w0.ext) ∈ pnmCalls (okClt.Add demoLib 0 w0).2.trace) := by
  decide

/-- C5, amended: when the primary store's add succeeds, Add calls the pin
coordinator's add exactly once, after the primary store, and hands it copy B and
nothing else; the identifier is not among the arguments. -/
theorem Add_hands_copyB_once {σ R ρ : Type} (L : Lib σ R) (c : clt σ R ρ) (r : R)
    (w : World σ R ρ) (p : ImmutablePath) (h : (c.primaryAdd L r w.ext).1 = .ok p) :
    (c.Add L r w).2.trace = w.trace ++ [.teeReader (L.bufioNewReader r),
      .UnixfsAdd (L.NewReaderFile (copyA L r w.ext)) [addOption c.conf],
      .pnmAdd (copyB L r w.ext)] ∧
    pnmCalls (c.Add L r w).2.trace = pnmCalls w.trace ++ [.stream (copyB L r w.ext)] ∧
    (c.Add L r w).2.ext = c.pnm.add (copyB L r w.ext) (c.primaryAdd L r w.ext).2 := by
  rw [Add_of_ok L c r w p h]
  refine ⟨rfl, ?_, rfl⟩
  simp [pnmCalls_append, pnmCalls, Call.pnm]

/-- C5, amended, evaluated on the working primary store. -/
theorem Add_hands_copyB_once_witness :
    (okClt.primaryAdd demoLib 0 w0.ext).1 = .ok ⟨⟨"QmA"⟩, []⟩ ∧
    (okClt.Add demoLib 0 w0).2.trace = w0.trace ++ [.teeReader 1,
      .UnixfsAdd 111 [addOption okClt.conf], .pnmAdd 21] ∧
    pnmCalls (okClt.Add demoLib 0 w0).2.trace = pnmCalls w0.trace ++ [.stream 21] ∧
    (okClt.Add demoLib 0 w0).2.ext = ["tee", "api.add", "pnm.add"] :=
  ⟨by decide, Add_hands_copyB_once demoLib okClt 0 w0 ⟨⟨"QmA"⟩, []⟩ (by decide)⟩

/-- C6: when the primary store's add succeeds with the path p, Add returns a nil
error and a CID whose Hash is the string form of the root identifier of p, and
the primary store's add was called exactly once, on copy A wrapped as a file. -/
theorem Add_returns_root_cid {σ R ρ : Type} (L : Lib σ R) (c : clt σ R ρ) (r : R)
    (w : World σ R ρ) (p : ImmutablePath) (h : (c.primaryAdd L r w.ext).1 = .ok p) :
    (c.Add L r w).1 = (some ⟨L.CidString p.RootCid⟩, none) ∧
    (c.Add L r w).2.trace.filterMap Call.unixfsAdd =
      w.trace.filterMap Call.unixfsAdd ++ [L.NewReaderFile (copyA L r w.ext)] := by
  rw [Add_of_ok L c r w p h]
  refine ⟨rfl, ?_⟩
  simp [List.filterMap_append, Call.unixfsAdd]

/-- C6, evaluated on the working primary store. -/
theorem Add_returns_root_cid_witness :
    (okClt.primaryAdd demoLib 0 w0.ext).1 = .ok ⟨⟨"QmA"⟩, []⟩ ∧
    (okClt.Add demoLib 0 w0).1 = (some ⟨"QmA"⟩, none) ∧
    (okClt.Add demoLib 0 w0).2.trace.filterMap Call.unixfsAdd = [] ++ [111] :=
  ⟨by decide, Add_returns_root_cid demoLib okClt 0 w0 ⟨⟨"QmA"⟩, []⟩ (by decide)⟩

/-- C7: in every Add call the primary store's add is called with the single option
addOption of the configuration, and on every settings value that option returns
nil, sets Pin to true and CidVersion to the configured CIDVersion, and leaves
the other fields as they were. -/
theorem Add_option_pins {σ R ρ : Type} (L : Lib σ R) (c : clt σ R ρ) (r : R)
    (w : World σ R ρ) (s : UnixfsAddSettings ρ) :
    Call.UnixfsAdd (L.NewReaderFile (copyA L r w.ext)) [addOption c.conf] ∈
      (c.Add L r w).2.trace ∧
    (addOption c.conf s).2 = none ∧
    (addOption c.conf s).1.Pin = true ∧
    (addOption c.conf s).1.CidVersion = c.conf.CIDVersion ∧
    (addOption c.conf s).1.rest = s.rest := by
  refine ⟨?_, rfl, rfl, rfl, rfl⟩
  cases h : (c.primaryAdd L r w.ext).1 with
  | error e => rw [Add_of_error L c r w e h]; simp
  | ok p => rw [Add_of_ok L c r w p h]; simp

/-! ## Pin -/

/-- C2: when the hash decodes, so that the primary store's pin is called, Pin
returns what that call returns: the error e when it fails with e, nil when it
returns nil; and the primary store's pin is called once, on the decoded
identifier. -/
theorem Pin_returns_primary_result {σ R ρ : Type} (L : Lib σ R) (c : clt σ R ρ) (req : CID)
    (w : World σ R ρ) (cid : Cid) (h : L.Decode req.Hash = .ok cid) :
    (c.Pin L req w).2.trace.filterMap Call.pinAdd =
      w.trace.filterMap Call.pinAdd ++ [FromCid cid] ∧
    (∀ e, (c.primaryPin L cid w.ext).1 = some e → (c.Pin L req w).1 = some e) ∧
    ((c.primaryPin L cid w.ext).1 = none → (c.Pin L req w).1 = none) := by
  rw [Pin_of_ok L c req w cid h]
  refine ⟨?_, fun e he => he, fun he => he⟩
  simp [List.filterMap_append, Call.pinAdd]

/-- C2, evaluated on the failing and on the working primary store. -/
theorem Pin_returns_primary_result_witness :
    (demoLib.Decode "QmA" = .ok ⟨"QmA"⟩ ∧
      (downClt.primaryPin demoLib ⟨"QmA"⟩ w0.ext).1 = some (.other "store down") ∧
      (downClt.Pin demoLib ⟨"QmA"⟩ w0).1 = some (.other "store down")) ∧
    ((okClt.primaryPin demoLib ⟨"QmA"⟩ w0.ext).1 = none ∧
      (okClt.Pin demoLib ⟨"QmA"⟩ w0).1 = none) :=
  ⟨⟨by decide, by decide,
    (Pin_returns_primary_result demoLib downClt ⟨"QmA"⟩ w0 ⟨"QmA"⟩ (by decide)).2.1
      (.other "store down") (by decide)⟩,
   ⟨by decide,
    (Pin_returns_primary_result demoLib okClt ⟨"QmA"⟩ w0 ⟨"QmA"⟩ (by decide)).2.2 (by decide)⟩⟩

/-- C3, as stated, fails: on the failing primary store the pin step fails, and the
pin coordinator has all the same been asked to pin the identifier. -/
theorem Pin_primary_failure_does_not_abort :
    ¬ (∀ e, (downClt.primaryPin demoLib ⟨"QmA"⟩ w0.ext).1 = some e →
        pnmCalls (downClt.Pin demoLib ⟨"QmA"⟩ w0).2.trace = pnmCalls w0.trace) := by
  intro h
  have h1 := h (.other "store down") (by decide)
  revert h1
  decide

/-- C3, amended: a hash that does not decode aborts Pin before anything is
scheduled, the world is untouched; a hash that decodes makes Pin call the pin
coordinator's pin once, with the string form of the decoded identifier, and
then the primary store's pin, whatever the primary store answers. -/
theorem Pin_schedules_then_pins {σ R ρ : Type} (L : Lib σ R) (c : clt σ R ρ) (req : CID)
    (w : World σ R ρ) :
    (∀ e, L.Decode req.Hash = .error e → (c.Pin L req w).2 = w) ∧
    (∀ cid, L.Decode req.Hash = .ok cid →
      (c.Pin L req w).2.trace =
        w.trace ++ [.pnmPin ⟨L.CidString cid⟩, .PinAdd (FromCid cid)] ∧
      pnmCalls (c.Pin L req w).2.trace = pnmCalls w.trace ++ [.ident ⟨L.CidString cid⟩]) := by
  refine ⟨fun e he => ?_, fun cid hc => ?_⟩
  · rw [Pin_of_error L c req w e he]
  · rw [Pin_of_ok L c req w cid hc]
    refine ⟨rfl, ?_⟩
    simp [pnmCalls_append, pnmCalls, Call.pnm]

/-- C3, amended, evaluated on a hash that does not decode and on one that does
with the failing primary store. -/
theorem Pin_schedules_then_pins_witness :
    (demoLib.Decode "not-a-cid" = .error (.other "invalid cid") ∧
      (downClt.Pin demoLib ⟨"not-a-cid"⟩ w0).2 = w0) ∧
    (demoLib.Decode "QmA" = .ok ⟨"QmA"⟩ ∧
      (downClt.Pin demoLib ⟨"QmA"⟩ w0).2.trace =
        w0.trace ++ [.pnmPin ⟨"QmA"⟩, .PinAdd (FromCid ⟨"QmA"⟩)] ∧
      pnmCalls (downClt.Pin demoLib ⟨"QmA"⟩ w0).2.trace = pnmCalls w0.trace ++ [.ident ⟨"QmA"⟩]) :=
  ⟨⟨by decide,
    (Pin_schedules_then_pins demoLib downClt ⟨"not-a-cid"⟩ w0).1 (.other "invalid cid")
      (by decide)⟩,
   ⟨by decide,
    (Pin_schedules_then_pins demoLib downClt ⟨"QmA"⟩ w0).2 ⟨"QmA"⟩ (by decide)⟩⟩

/-- C4, as stated, fails: on a hash that does not decode Pin returns an error over
a primary store whose pin operation never returns one. -/
theorem Pin_error_not_from_primary :
    ¬ (∀ e, (okClt.Pin demoLib ⟨"not-a-cid"⟩ w0).1 = some e →
        ∃ p s, (okClt.api.PinAdd p s).1 = some e) := by
  intro h
  obtain ⟨p, s, hp⟩ := h (.other "invalid cid") (by decide)
  simp [okClt, okApi] at hp

/-- C4, amended: every error Add returns is the error the primary store's add
returned to it, and every error Pin returns is either the error of decoding the
hash or the error the primary store's pin returned to it. -/
theorem Add_Pin_error_sources {σ R ρ : Type} (L : Lib σ R) (c : clt σ R ρ)
    (w : World σ R ρ) (e : GoError) :
    (∀ r, (c.Add L r w).1.2 = some e → (c.primaryAdd L r w.ext).1 = .error e) ∧
    (∀ req, (c.Pin L req w).1 = some e →
      L.Decode req.Hash = .error e ∨
      ∃ cid, L.Decode req.Hash = .ok cid ∧ (c.primaryPin L cid w.ext).1 = some e) := by
  refine ⟨fun r hr => ?_, fun req hr => ?_⟩
  · cases h : (c.primaryAdd L r w.ext).1 with
    | error e1 =>
      rw [Add_of_error L c r w e1 h] at hr
      simp only [Option.some.injEq] at hr
      rw [hr]
    | ok p =>
      rw [Add_of_ok L c r w p h] at hr
      simp at hr
  · cases h : L.Decode req.Hash with
    | error e1 =>
      rw [Pin_of_error L c req w e1 h] at hr
      simp only [Option.some.injEq] at hr
      exact Or.inl (by rw [hr])
    | ok cid =>
      rw [Pin_of_ok L c req w cid h] at hr
      exact Or.inr ⟨cid, rfl, hr⟩

/-- C4, amended, evaluated on the failing primary store and on a hash that does
not decode. -/
theorem Add_Pin_error_sources_witness :
    ((downClt.Add demoLib 0 w0).1.2 = some (.other "store down") ∧
      (downClt.primaryAdd demoLib 0 w0.ext).1 = .error (.other "store down")) ∧
    ((okClt.Pin demoLib ⟨"not-a-cid"⟩ w0).1 = some (.other "invalid cid") ∧
      (demoLib.Decode "not-a-cid" = .error (.other "invalid cid") ∨
        ∃ cid, demoLib.Decode "not-a-cid" = .ok cid ∧
          (okClt.primaryPin demoLib cid w0.ext).1 = some (.other "invalid cid"))) :=
  ⟨⟨by decide,
    (Add_Pin_error_sources demoLib downClt w0 (.other "store down")).1 0 (by decide)⟩,
   ⟨by decide,
    (Add_Pin_error_sources demoLib okClt w0 (.other "invalid cid")).2 ⟨"not-a-cid"⟩
      (by decide)⟩⟩

/-! ## ListCID -/

/-- C8: ListCID makes one call, the primary store's pin listing.  When the
listing fails with e, ListCID returns the nil channel and e.  When it delivers
the pins p1..pn, ListCID returns a nil error and a channel that delivers
exactly n CIDs, the i-th being the string form of the root identifier of pi,
and is then closed. -/
theorem ListCID_passthrough {σ R ρ : Type} (L : Lib σ R) (c : clt σ R ρ) (w : World σ R ρ) :
    (c.ListCID L w).2.trace = w.trace ++ [.PinLs] ∧
    (∀ e, (c.api.PinLs w.ext).1 = .error e → (c.ListCID L w).1 = (none, some e)) ∧
    (∀ pins, (c.api.PinLs w.ext).1 = .ok pins →
      ∃ ch, (c.ListCID L w).1 = (some ch, none) ∧
        ch.closed = true ∧
        ch.sent.length = pins.length ∧
        ch.sent = pins.map (fun pin => ⟨L.CidString pin.Path.RootCid⟩) ∧
        ∀ i (hi : i < pins.length),
          ch.sent[i]? = some ⟨L.CidString (pins[i]).Path.RootCid⟩) := by
  refine ⟨?_, fun e he => ?_, fun pins hp => ?_⟩
  · simp only [clt.ListCID, World.call]
    split <;> rfl
  · simp only [clt.ListCID, he]
  · refine ⟨forward L pins ⟨[], false⟩, ?_, ?_, ?_, ?_, ?_⟩
    · simp only [clt.ListCID, hp]
    · rw [forward_eq]
    · rw [forward_eq]; simp
    · rw [forward_eq]; simp [pinCID]
    · intro i hi
      rw [forward_eq]
      simp [pinCID, List.getElem?_map, List.getElem?_eq_getElem hi]

/-- C8, evaluated on the failing primary store and on a listing of two pins. -/
theorem ListCID_passthrough_witness :
    ((downClt.api.PinLs w0.ext).1 = .error (.other "store down") ∧
      (downClt.ListCID demoLib w0).1 = (none, some (.other "store down"))) ∧
    ((okClt.ListCID demoLib w0).1 = (some ⟨[⟨"QmA"⟩, ⟨"QmB"⟩], true⟩, none) ∧
      ∃ ch, (okClt.ListCID demoLib w0).1 = (some ch, none) ∧ ch.closed = true ∧
        ch.sent.length = 2) :=
  ⟨⟨by decide, (ListCID_passthrough demoLib downClt w0).2.1 (.other "store down") (by decide)⟩,
   ⟨by decide,
    match (ListCID_passthrough demoLib okClt w0).2.2
      [⟨⟨⟨"QmA"⟩, []⟩, "recursive"⟩, ⟨⟨⟨"QmB"⟩, []⟩, "direct"⟩] (by decide) with
    | ⟨ch, h1, h2, h3, _⟩ => ⟨ch, h1, h2, h3⟩⟩⟩

/-! ## Get -/

/-- C9: (1) when the hash does not decode, Get returns the nil reader and the
decode error and leaves the world untouched, so the primary store is not
called; (2) when the primary store's get fails with e, Get returns nil and e;
(3) when the primary store returns a node that is not a file, Get returns nil
and os.ErrNotExist; (4) when it returns a file, Get returns that file and a nil
error.  In (2) to (4) the primary store's get was called once, on the path of
the decoded identifier. -/
theorem Get_passthrough {σ R ρ : Type} (L : Lib σ R) (c : clt σ R ρ) (req : CID)
    (w : World σ R ρ) :
    (∀ e, L.Decode req.Hash = .error e → c.Get L req w = ((none, some e), w)) ∧
    (∀ cid e, L.Decode req.Hash = .ok cid →
      (c.api.UnixfsGet (FromCid cid) w.ext).1 = .error e →
      (c.Get L req w).1 = (none, some e)) ∧
    (∀ cid nd, L.Decode req.Hash = .ok cid →
      (c.api.UnixfsGet (FromCid cid) w.ext).1 = .ok nd → (∀ f, nd ≠ .file f) →
      (c.Get L req w).1 = (none, some .ErrNotExist)) ∧
    (∀ cid f, L.Decode req.Hash = .ok cid →
      (c.api.UnixfsGet (FromCid cid) w.ext).1 = .ok (.file f) →
      (c.Get L req w).1 = (some f, none)) ∧
    (∀ cid, L.Decode req.Hash = .ok cid →
      (c.Get L req w).2.trace = w.trace ++ [.UnixfsGet (FromCid cid)]) := by
  refine ⟨fun e he => ?_, fun cid e hc hg => ?_, fun cid nd hc hg hn => ?_,
    fun cid f hc hg => ?_, fun cid hc => ?_⟩
  · simp only [clt.Get, he]
  · simp only [clt.Get, hc, hg]
  · cases nd with
    | file f => exact absurd rfl (hn f)
    | directory entries => simp only [clt.Get, hc, hg]
  · simp only [clt.Get, hc, hg]
  · simp only [clt.Get, hc, World.call]
    split
    · rfl
    · split <;> rfl

/-- C9, evaluated once for each of the four cases. -/
theorem Get_passthrough_witness :
    (demoLib.Decode "not-a-cid" = .error (.other "invalid cid") ∧
      okClt.Get demoLib ⟨"not-a-cid"⟩ w0 = ((none, some (.other "invalid cid")), w0)) ∧
    ((downClt.api.UnixfsGet (FromCid ⟨"QmA"⟩) w0.ext).1 = .error (.other "store down") ∧
      (downClt.Get demoLib ⟨"QmA"⟩ w0).1 = (none, some (.other "store down"))) ∧
    ((dirClt.api.UnixfsGet (FromCid ⟨"QmA"⟩) w0.ext).1 = .ok (.directory ["a", "b"]) ∧
      (dirClt.Get demoLib ⟨"QmA"⟩ w0).1 = (none, some .ErrNotExist)) ∧
    ((okClt.api.UnixfsGet (FromCid ⟨"QmA"⟩) w0.ext).1 = .ok (.file 7) ∧
      (okClt.Get demoLib ⟨"QmA"⟩ w0).1 = (some 7, none)) :=
  ⟨⟨by decide,
    (Get_passthrough demoLib okClt ⟨"not-a-cid"⟩ w0).1 (.other "invalid cid") (by decide)⟩,
   ⟨by decide,
    (Get_passthrough demoLib downClt ⟨"QmA"⟩ w0).2.1 ⟨"QmA"⟩ (.other "store down")
      (by decide) (by decide)⟩,
   ⟨by decide,
    (Get_passthrough demoLib dirClt ⟨"QmA"⟩ w0).2.2.1 ⟨"QmA"⟩ (.directory ["a", "b"])
      (by decide) (by decide) (fun f hf => by cases hf)⟩,
   ⟨by decide,
    (Get_passthrough demoLib okClt ⟨"QmA"⟩ w0).2.2.2.1 ⟨"QmA"⟩ 7 (by decide) (by decide)⟩⟩

/-! ## The stream duplicator -/

theorem DupInv_teeReader (ceiling : Nat) (src : List Byte) :
    DupInv src (teeReader ceiling src) := by
  simp [DupInv, teeReader]

theorem DupInv_backlog_le {src : List Byte} {d : DuplicatedStream} (h : DupInv src d) :
    d.backlog.length + d.source.length ≤ src.length := by
  obtain ⟨h1, h2⟩ := h
  have e1 := congrArg List.length h1
  have e2 := congrArg List.length h2
  simp only [List.length_append] at e1 e2
  omega

theorem read_ok {src : List Byte} {d : DuplicatedStream} (h : DupInv src d)
    (hc : src.length ≤ d.ceiling) (rd : Side × Nat) :
    ∃ d1, d.read rd = .ok d1 ∧ DupInv src d1 ∧ d1.ceiling = d.ceiling := by
  obtain ⟨side, n⟩ := rd
  have hb := DupInv_backlog_le h
  obtain ⟨h1, h2⟩ := h
  cases side with
  | A =>
    have hlen : (d.source.take n).length ≤ d.source.length := List.length_take_le' n d.source
    have hno : ¬ (d.backlog.length + (d.source.take n).length > d.ceiling) := by omega
    refine ⟨{ d with source := d.source.drop n, backlog := d.backlog ++ d.source.take n,
                     outA := d.outA ++ d.source.take n }, ?_, ⟨?_, ?_⟩, rfl⟩
    · simp only [DuplicatedStream.read, DuplicatedStream.readA, hno, if_false]
    · simp only [List.append_assoc, List.take_append_drop]
      exact h1
    · simp only [← List.append_assoc, h2]
  | B =>
    refine ⟨_, rfl, ⟨h1, ?_⟩, rfl⟩
    simp only [DuplicatedStream.readB, List.append_assoc, List.take_append_drop]
    exact h2

theorem run_ok {src : List Byte} (sched : List (Side × Nat)) :
    ∀ {d : DuplicatedStream}, DupInv src d → src.length ≤ d.ceiling →
      ∃ d1, d.run sched = .ok d1 ∧ DupInv src d1 ∧ d1.ceiling = d.ceiling := by
  induction sched with
  | nil => intro d h _; exact ⟨d, rfl, h, rfl⟩
  | cons rd rest ih =>
    intro d h hc
    obtain ⟨d1, e1, i1, c1⟩ := read_ok h hc rd
    obtain ⟨d2, e2, i2, c2⟩ := ih i1 (by rw [c1]; exact hc)
    exact ⟨d2, by simp only [DuplicatedStream.run, e1, e2], i2, by rw [c2, c1]⟩

theorem run_append (s1 s2 : List (Side × Nat)) :
    ∀ {d d1 : DuplicatedStream}, d.run s1 = .ok d1 → d.run (s1 ++ s2) = d1.run s2 := by
  induction s1 with
  | nil => intro d d1 h; simp only [DuplicatedStream.run, Except.ok.injEq] at h; rw [← h]; rfl
  | cons rd rest ih =>
    intro d d1 h
    simp only [DuplicatedStream.run, List.cons_append] at h ⊢
    cases hr : d.read rd with
    | error e => rw [hr] at h; cases h
    | ok d2 => rw [hr] at h; simp only; exact ih h

theorem runA_source (na : List Nat) :
    ∀ {d d1 : DuplicatedStream}, d.run (na.map (fun n => (Side.A, n))) = .ok d1 →
      d1.source.length = d.source.length - na.sum := by
  induction na with
  | nil => intro d d1 h; simp only [List.map_nil, DuplicatedStream.run, Except.ok.injEq] at h; simp [← h]
  | cons n rest ih =>
    intro d d1 h
    simp only [List.map_cons, DuplicatedStream.run, DuplicatedStream.read,
      DuplicatedStream.readA] at h
    split at h
    · cases h
    · rename_i d2 hd
      split at hd
      · cases hd
      · simp only [Except.ok.injEq] at hd
        have := ih h
        rw [this, ← hd]
        simp only [List.length_drop, List.sum_cons]
        omega

theorem runB_backlog (nb : List Nat) :
    ∀ {d d1 : DuplicatedStream}, d.run (nb.map (fun n => (Side.B, n))) = .ok d1 →
      d1.source = d.source ∧ d1.backlog.length = d.backlog.length - nb.sum := by
  induction nb with
  | nil => intro d d1 h; simp only [List.map_nil, DuplicatedStream.run, Except.ok.injEq] at h; simp [← h]
  | cons n rest ih =>
    intro d d1 h
    simp only [List.map_cons, DuplicatedStream.run, DuplicatedStream.read] at h
    obtain ⟨h1, h2⟩ := ih h
    refine ⟨by rw [h1]; rfl, ?_⟩
    rw [h2]
    simp only [DuplicatedStream.readB, List.length_drop, List.sum_cons]
    omega

theorem drained_eq {ceiling : Nat} {src : List Byte} (h : src.length ≤ ceiling)
    {na nb : List Nat} (ha : src.length ≤ na.sum) (hb : src.length ≤ nb.sum)
    {d1 d2 : DuplicatedStream}
    (e1 : (teeReader ceiling src).run (na.map (fun n => (Side.A, n))) = .ok d1)
    (e2 : d1.run (nb.map (fun n => (Side.B, n))) = .ok d2) :
    d2.outA = src ∧ d2.outB = src := by
  obtain ⟨d1', e1', i1, c1⟩ := run_ok (na.map (fun n => (Side.A, n)))
    (DupInv_teeReader ceiling src) h
  rw [e1] at e1'
  cases e1'
  obtain ⟨d2', e2', i2, _⟩ := run_ok (nb.map (fun n => (Side.B, n))) i1 (by rw [c1]; exact h)
  rw [e2] at e2'
  cases e2'
  have s1 := runA_source na e1
  obtain ⟨s2, b2⟩ := runB_backlog nb e2
  have hsrc : d2.source = [] := by
    apply List.eq_nil_of_length_eq_zero
    rw [s2, s1]
    simp only [teeReader]
    omega
  have hlen := DupInv_backlog_le i1
  have hbl : d2.backlog = [] := by
    apply List.eq_nil_of_length_eq_zero
    rw [b2]
    omega
  obtain ⟨j1, j2⟩ := i2
  rw [hsrc, List.append_nil] at j1
  rw [hbl, List.append_nil] at j2
  exact ⟨j1, j2.trans j1⟩

/-- C10: over a byte sequence no longer than the duplication ceiling, no schedule
of reads on the two handles overflows, A has always received a prefix of the
sequence and B a prefix of what A received; and when A is drained first and B
read only afterwards, both handles deliver exactly the input sequence. -/
theorem teeReader_copies_identical (ceiling : Nat) (src : List Byte)
    (h : src.length ≤ ceiling) :
    (∀ sched, ∃ d, (teeReader ceiling src).run sched = .ok d ∧
      d.outA <+: src ∧ d.outB <+: d.outA) ∧
    (∀ na nb, src.length ≤ na.sum → src.length ≤ nb.sum →
      ∃ d, (teeReader ceiling src).run (drainAThenB na nb) = .ok d ∧
        d.outA = src ∧ d.outB = src) := by
  have h0 := DupInv_teeReader ceiling src
  constructor
  · intro sched
    obtain ⟨d, e, ⟨i1, i2⟩, _⟩ := run_ok sched h0 h
    exact ⟨d, e, ⟨d.source, i1⟩, ⟨d.backlog, i2⟩⟩
  · intro na nb ha hb
    obtain ⟨d1, e1, i1, c1⟩ := run_ok (na.map (fun n => (Side.A, n))) h0 h
    obtain ⟨d2, e2, _, _⟩ := run_ok (nb.map (fun n => (Side.B, n))) i1 (by rw [c1]; exact h)
    obtain ⟨j1, j2⟩ := drained_eq h ha hb e1 e2
    refine ⟨d2, ?_, j1, j2⟩
    rw [drainAThenB, run_append _ _ e1]
    exact e2

/-- C10, evaluated on three bytes under a ceiling of three, A drained by two reads
and B read afterwards. -/
theorem teeReader_copies_identical_witness :
    ([1, 2, 3] : List Byte).length ≤ 3 ∧
    ∃ d, (teeReader 3 [1, 2, 3]).run (drainAThenB [2, 2] [1, 5]) = .ok d ∧
      d.outA = [1, 2, 3] ∧ d.outB = [1, 2, 3] :=
  ⟨by decide,
   (teeReader_copies_identical 3 [1, 2, 3] (by decide)).2 [2, 2] [1, 5] (by decide) (by decide)⟩

/-- Add run over the duplicator: when the input is within the ceiling, the
primary store drains the file it is given and the pin coordinator afterwards
drains the stream it is given, Add succeeds and both have received the input. -/
theorem Add_over_teeReader (ceiling : Nat) (src : List Byte) (h : src.length ≤ ceiling)
    (na nb : List Nat) (ha : src.length ≤ na.sum) (hb : src.length ≤ nb.sum)
    (w : World DuplicatedStream Handle Unit) :
    ((drainingClt na nb).Add (dupLib ceiling) (.input src) w).1 = (some ⟨"QmA"⟩, none) ∧
    ((drainingClt na nb).Add (dupLib ceiling) (.input src) w).2.ext.outA = src ∧
    ((drainingClt na nb).Add (dupLib ceiling) (.input src) w).2.ext.outB = src := by
  obtain ⟨d1, e1, i1, c1⟩ := run_ok (na.map (fun n => (Side.A, n)))
    (DupInv_teeReader ceiling src) h
  obtain ⟨d2, e2, _, _⟩ := run_ok (nb.map (fun n => (Side.B, n))) i1 (by rw [c1]; exact h)
  obtain ⟨j1, j2⟩ := drained_eq h ha hb e1 e2
  have hp : ((drainingClt na nb).primaryAdd (dupLib ceiling) (.input src) w.ext) =
      (.ok ⟨⟨"QmA"⟩, []⟩, d1) := by
    simp only [clt.primaryAdd, drainingClt, drainingApi, dupLib, copyA, drain, Handle.side,
      Handle.bytes, e1]
  rw [Add_of_ok _ _ _ _ ⟨⟨"QmA"⟩, []⟩ (by rw [hp])]
  have hx : (drainingClt na nb).pnm.add (copyB (dupLib ceiling) (.input src) w.ext) d1 = d2 := by
    simp only [drainingClt, drainingPnm, dupLib, copyB, drain, Handle.side, e2]
  simp only [hp, hx]
  exact ⟨rfl, j1, j2⟩

end Easipfs
